import Mathlib

/-!
Shallow embedding of the OLX car-cover scraper (Python) in Lean 4.

The repository's core is a record pipeline: a scraper harvests listing
records (title/description/price) from parsed HTML pages, then
`clean_price_data`, `filter_valid_listings` and `validate_listings`
normalise, filter and shape-check the record list, and `main` routes the
result to one of several terminal outcomes.

Records are modelled as association lists `List (String × String)`
(Python dicts with string keys/values); Python string helpers
(`str.strip`, `str.split`, `' '.join`) are modelled character-exactly
over `List Char`.
-/

namespace OLX

/-- Python whitespace predicate used by `str.strip()` / `str.split()`
(ASCII whitespace: space, tab, newline, carriage return, vertical tab,
form feed). -/
def pyIsSpace (c : Char) : Bool :=
  c = ' ' || c = '\t' || c = '\n' || c = '\r' || c = '\x0b' || c = '\x0c'

/-- `str.strip()` on the character list: drop leading and trailing
whitespace. -/
def stripChars (l : List Char) : List Char :=
  ((l.dropWhile pyIsSpace).reverse.dropWhile pyIsSpace).reverse

/-- `str.strip()` on strings. -/
def pyStrip (s : String) : String :=
  ⟨stripChars s.data⟩

/-- `str.split()` with no argument: the maximal runs of non-whitespace
characters (empty runs never appear). -/
def words : List Char → List (List Char)
  | [] => []
  | c :: cs =>
    if pyIsSpace c then words cs
    else (c :: cs.takeWhile (fun d => !pyIsSpace d)) ::
      words (cs.dropWhile (fun d => !pyIsSpace d))
termination_by l => l.length
decreasing_by
  · simp only [List.length_cons]; omega
  · simp only [List.length_cons]
    exact Nat.lt_succ_of_le (List.dropWhile_suffix _).sublist.length_le

/-- `' '.join(tokens)` on character lists. -/
def joinChars : List (List Char) → List Char
  | [] => []
  | [t] => t
  | t :: ts => t ++ ' ' :: joinChars ts

/-- `' '.join(s.split())`: collapse internal whitespace runs to single
spaces (and drop edge whitespace). -/
def joinWords (s : String) : String :=
  ⟨joinChars (words s.data)⟩

/-- What `words` produces: non-empty, whitespace-free tokens. -/
def IsTokens (ts : List (List Char)) : Prop :=
  ∀ t ∈ ts, t ≠ [] ∧ ∀ c ∈ t, pyIsSpace c = false

/-! ## Records (Python dicts with string keys and values) -/

/-- A listing record: a Python dict, modelled as an association list. -/
abbrev Rec := List (String × String)

/-- `d.get(k)`: the value at the first occurrence of key `k`, if any. -/
def getKey : Rec → String → Option String
  | [], _ => none
  | p :: r, k => if p.1 == k then some p.2 else getKey r k

/-- `d.get(k, default)`. -/
def getD (r : Rec) (k d : String) : String :=
  (getKey r k).getD d

/-- `d[k] = v`: overwrite the value at key `k` if present, else append
the binding at the end (Python dicts keep insertion order). -/
def setKey : Rec → String → String → Rec
  | [], k, v => [(k, v)]
  | p :: r, k, v => if p.1 == k then (k, v) :: r else p :: setKey r k v

/-- Key membership (`k in d.keys()`). -/
def hasKey : Rec → String → Bool
  | [], _ => false
  | p :: r, k => p.1 == k || hasKey r k

/-! ## `src/data_processor.py` -/

/-- Body of the `for listing in listings` loop of `clean_price_data`:
copy the record; if the stripped price is non-empty and not `"N/A"`,
overwrite `price` with its whitespace-collapsed form; then overwrite
`title` and `description` with their stripped forms (reads are from the
original `listing`). -/
def cleanRecord (listing : Rec) : Rec :=
  let price := pyStrip (getD listing "price" "")
  let c1 := if price ≠ "" ∧ price ≠ "N/A"
    then setKey listing "price" (joinWords price) else listing
  let c2 := setKey c1 "title" (pyStrip (getD listing "title" ""))
  setKey c2 "description" (pyStrip (getD listing "description" ""))

/-- `clean_price_data`: clean every record, preserving order. -/
def clean_price_data (listings : List Rec) : List Rec :=
  listings.map cleanRecord

/-- The keep-condition of `filter_valid_listings`:
`listing.get('title')` is truthy, the title is not `"N/A"` or
`"Error extracting"`, and `len(listing.get('title', '')) > 5`. -/
def isValidListing (listing : Rec) : Bool :=
  (match getKey listing "title" with | none => false | some t => t ≠ "")
    && !(getKey listing "title" == some "N/A")
    && !(getKey listing "title" == some "Error extracting")
    && decide ((getD listing "title" "").length > 5)

/-- `filter_valid_listings`: keep only records satisfying
`isValidListing`, preserving order. -/
def filter_valid_listings (listings : List Rec) : List Rec :=
  listings.filter isValidListing

/-! ## `src/utils.py` -/

/-- `validate_url` (on strings): `if not url: return False` then an
unconditional `return True`; the domain/scheme check after it is dead
code. -/
def validate_url (url : String) : Bool :=
  if url = "" then false else true

/-- `validate_listings`: `False` on an empty (falsy) list, else every
element must be a dict whose keys include `title`, `description` and
`price` (`required_keys.issubset(listing.keys())`). -/
def validate_listings (listings : List Rec) : Bool :=
  if listings = [] then false
  else listings.all (fun l =>
    hasKey l "title" && hasKey l "description" && hasKey l "price")

/-- The fixed pool of 10 mock titles. -/
def mockTitles : List String :=
  ["Premium Car Cover for Sedan",
   "All-Weather SUV Car Body Cover",
   "Dustproof Hatchback Cover",
   "Waterproof Car Cover with Mirror Pockets",
   "UV Protection Car Body Cover",
   "Heavy Duty Silver Coated Cover",
   "Compact Car Body Cover",
   "Outdoor Monsoon Car Cover",
   "Elastic Fit Car Body Cover",
   "Breathable Car Cover"]

/-- The fixed pool of 10 mock feature descriptions. -/
def mockFeatures : List String :=
  ["Waterproof, UV Protection, Dustproof",
   "Heavy duty, mirror pockets",
   "Silver coated, strap & buckle",
   "All-season protection, soft inner lining",
   "Anti-scratch, elastic hem",
   "Includes storage bag",
   "Triple-stitch seams",
   "Windproof straps",
   "Heat resistant",
   "Lightweight and durable"]

/-- The fixed pool of 7 mock prices (string content as in the source
file). -/
def mockPrices : List String :=
  ["â‚¹ 999", "â‚¹ 1,199", "â‚¹ 1,299", "â‚¹ 1,499",
   "â‚¹ 1,799", "â‚¹ 1,999", "â‚¹ 2,199"]

/-- `generate_mock_listings`: `n` records, each built from one
`random.choice` per pool.  The random source is abstracted as a choice
oracle `ch`; call `3*i`, `3*i+1`, `3*i+2` are the three choices made in
iteration `i`. -/
def generate_mock_listings (n : Nat) (ch : Nat → List String → String) : List Rec :=
  (List.range n).map (fun i =>
    [("title", ch (3 * i) mockTitles),
     ("description", ch (3 * i + 1) mockFeatures),
     ("price", ch (3 * i + 2) mockPrices)])

/-! ## `src/scraper.py` -/

/-- One listing container element, abstracted: what the three
`find('span', {'data-aut-id': ...})` lookups return (the found child's
raw text, if found), plus whether extraction raises an exception. -/
structure ListingElem where
  titleText : Option String
  descText : Option String
  priceText : Option String
  raisesError : Bool
deriving DecidableEq, Repr

/-- `OLXScraper.extract_listing_data`: per-field, the trimmed text of
the found child, else `"N/A"`; on any exception, all three fields become
`"Error extracting"`. -/
def extract_listing_data (e : ListingElem) : Rec :=
  if e.raisesError then
    [("title", "Error extracting"),
     ("description", "Error extracting"),
     ("price", "Error extracting")]
  else
    [("title", (e.titleText.map pyStrip).getD "N/A"),
     ("description", (e.descText.map pyStrip).getD "N/A"),
     ("price", (e.priceText.map pyStrip).getD "N/A")]

/-- One fetched page's parse tree, abstracted to the results of the
three selector strategies tried by `scrape_search_results`. -/
structure Soup where
  divItemBox : List ListingElem
  divEIR5N : List ListingElem
  liItemBox : List ListingElem
deriving DecidableEq, Repr

/-- The `or`-chain of selector strategies: the first non-empty result
wins. -/
def selectListings (s : Soup) : List ListingElem :=
  if s.divItemBox ≠ [] then s.divItemBox
  else if s.divEIR5N ≠ [] then s.divEIR5N
  else s.liItemBox

/-- The per-page extraction loop: extract each listing and append the
record only when its `title` is not `"N/A"`. -/
def harvestPage (nodes : List ListingElem) : List Rec :=
  nodes.foldl (fun acc node =>
    let d := extract_listing_data node
    if getD d "title" "" ≠ "N/A" then acc ++ [d] else acc) []

/-- Page-URL construction: page 1 is the search URL unchanged; later
pages append `page=k` with `&` if the URL already contains `?`, else
`?`. -/
def pageUrl (search_url : String) (k : Nat) : String :=
  if k = 1 then search_url
  else search_url ++ (if search_url.data.contains '?' then "&" else "?")
    ++ "page=" ++ toString k

/-- The `while current_page <= max_pages` loop of
`scrape_search_results`, over a transport oracle `fetch` (`none` models
a fetch failure).  Stops on fetch failure or when no selector strategy
matches; otherwise appends the page's harvest and continues. -/
def scrapeLoop (fetch : String → Option Soup) (search_url : String)
    (max_pages current : Nat) (acc : List Rec) : List Rec :=
  if current ≤ max_pages then
    match fetch (pageUrl search_url current) with
    | none => acc
    | some soup =>
      let listings := selectListings soup
      if listings = [] then acc
      else scrapeLoop fetch search_url max_pages (current + 1)
        (acc ++ harvestPage listings)
  else acc
termination_by max_pages + 1 - current

/-- `OLXScraper.scrape_search_results`. -/
def scrape_search_results (fetch : String → Option Soup)
    (search_url : String) (max_pages : Nat) : List Rec :=
  scrapeLoop fetch search_url max_pages 1 []

/-- The records harvested from `d` consecutive successful pages starting
at page `c`, given the page parse trees `soups`. -/
def pagesHarvest (soups : Nat → Soup) : Nat → Nat → List Rec
  | _, 0 => []
  | c, d + 1 => harvestPage (selectListings (soups c)) ++ pagesHarvest soups (c + 1) d

/-! ## `main.py` -/

/-- The terminal outcomes of `main`'s data-processing section. -/
inductive RunOutcome
  | invalidFormatExit
  | displayed (count : Nat)
  | noValidAfterFilter
  | nothingFound
deriving DecidableEq, Repr

/-- `main`'s processing of `raw_listings` (main.py lines 130-164):
clean, filter, shape-validate (exit 1 on failure), then display or emit
the "no valid listings after filtering" diagnostic, or the "no listings
even after mock fallback" message when the raw list is empty. -/
def processListings (raw : List Rec) : RunOutcome :=
  if raw ≠ [] then
    let cleaned := clean_price_data raw
    let valid := filter_valid_listings cleaned
    if ¬ validate_listings valid then .invalidFormatExit
    else if valid ≠ [] then .displayed valid.length
    else .noValidAfterFilter
  else .nothingFound

/-- Process exit status of each outcome: `sys.exit(1)` on the
shape-validation failure path, normal termination (status 0)
otherwise. -/
def outcomeExitCode : RunOutcome → Nat
  | .invalidFormatExit => 1
  | _ => 0

/-! ## Record-level lemmas -/

theorem getKey_setKey_self (r : Rec) (k v : String) :
    getKey (setKey r k v) k = some v := by
  induction r with
  | nil => simp [setKey, getKey]
  | cons p r ih =>
    by_cases h : p.1 = k
    · simp [setKey, getKey, h]
    · simp only [setKey, getKey, beq_iff_eq, h, if_false]
      exact ih

theorem getKey_setKey_ne (r : Rec) (k v : String) (k' : String) (h : k' ≠ k) :
    getKey (setKey r k v) k' = getKey r k' := by
  have hkk : ¬ (k = k') := fun hk => h hk.symm
  induction r with
  | nil => simp [setKey, getKey, hkk]
  | cons p r ih =>
    obtain ⟨a, b⟩ := p
    by_cases hp : a = k
    · subst hp
      simp [setKey, getKey, hkk]
    · simp only [setKey, beq_iff_eq, hp, if_false, getKey]
      by_cases hp' : a = k' <;> simp [hp', ih]

theorem setKey_getKey_self (r : Rec) (k v : String)
    (h : getKey r k = some v) : setKey r k v = r := by
  induction r with
  | nil => simp [getKey] at h
  | cons p r ih =>
    obtain ⟨a, b⟩ := p
    by_cases hp : a = k
    · subst hp
      simp only [getKey, beq_self_eq_true, if_true, Option.some.injEq] at h
      simp [setKey, h]
    · simp only [getKey, beq_iff_eq, hp, if_false] at h
      simp [setKey, hp, ih h]

theorem hasKey_eq_isSome_getKey (r : Rec) (k : String) :
    hasKey r k = (getKey r k).isSome := by
  induction r with
  | nil => simp [hasKey, getKey]
  | cons p r ih => by_cases hp : p.1 = k <;> simp [hasKey, getKey, hp, ih]

/-- The keep-condition of `filter_valid_listings`, characterised. -/
theorem isValidListing_iff (r : Rec) :
    isValidListing r = true ↔
      ∃ t, getKey r "title" = some t ∧ t ≠ "" ∧ t ≠ "N/A" ∧
        t ≠ "Error extracting" ∧ t.length > 5 := by
  cases h : getKey r "title" with
  | none => simp [isValidListing, h]
  | some t =>
    simp only [isValidListing, h, getD, Option.getD_some, Bool.and_eq_true,
      decide_eq_true_eq, Option.some.injEq, bne_iff_ne, ne_eq,
      Bool.not_eq_true', beq_eq_false_iff_ne]
    constructor
    · rintro ⟨⟨⟨h1, h2⟩, h3⟩, h4⟩
      exact ⟨t, rfl, by simpa using h1, h2, h3, h4⟩
    · rintro ⟨t', ht', h1, h2, h3, h4⟩
      obtain rfl : t = t' := by simpa using ht'
      exact ⟨⟨⟨by simpa using h1, h2⟩, h3⟩, h4⟩

/-- On a record whose stripped price is empty or `"N/A"`, `cleanRecord`
does not touch the `price` binding. -/
theorem getKey_cleanRecord_price (r : Rec)
    (hsent : pyStrip (getD r "price" "") = "" ∨
      pyStrip (getD r "price" "") = "N/A") :
    getKey (cleanRecord r) "price" = getKey r "price" := by
  have hcond : ¬ (pyStrip (getD r "price" "") ≠ "" ∧
      pyStrip (getD r "price" "") ≠ "N/A") := by tauto
  simp only [cleanRecord]
  rw [getKey_setKey_ne _ _ _ _ (by decide), getKey_setKey_ne _ _ _ _ (by decide),
    if_neg hcond]

/-! ## Claims -/

/-- C1: the claim says that when the pre-filter record list is non-empty
but `filter_valid_listings` drops every record, `main` emits the
"no valid listings after filtering" diagnostic and exits with status 0.
The code instead hits the shape-validation failure path:
`validate_listings` returns `False` on the empty filtered list, so
`main` prints "Invalid data format detected" and calls `sys.exit(1)`;
the diagnostic branch is unreachable.  Concrete run shown here: one raw
record whose title is the `"N/A"` sentinel. -/
theorem claim_C1_code_bug :
    ([[("title", "N/A"), ("description", "a description"), ("price", "100")]] : List Rec) ≠ [] ∧
    filter_valid_listings (clean_price_data
      [[("title", "N/A"), ("description", "a description"), ("price", "100")]]) = [] ∧
    processListings [[("title", "N/A"), ("description", "a description"), ("price", "100")]]
      = RunOutcome.invalidFormatExit ∧
    outcomeExitCode (processListings
      [[("title", "N/A"), ("description", "a description"), ("price", "100")]]) = 1 := by
  exact ⟨by decide, by decide, by decide, by decide⟩

/-- C2 (counterexample): a record carrying an additional key beyond
`title`/`description`/`price` is accepted by `validate_listings`
(`required_keys.issubset(listing.keys())` only checks inclusion), so the
claim that any additional key forces `False` fails. -/
theorem claim_C2_counterexample :
    validate_listings
      [[("title", "a"), ("description", "b"), ("price", "c"), ("extra", "d")]] = true := by
  decide

/-- C2 (amended): `validate_listings` returns `True` iff the list is
non-empty and every record contains at least the three required keys;
additional keys are accepted. -/
theorem claim_C2_amended (listings : List Rec) :
    validate_listings listings = true ↔
      listings ≠ [] ∧ ∀ r ∈ listings,
        hasKey r "title" = true ∧ hasKey r "description" = true ∧
        hasKey r "price" = true := by
  by_cases h : listings = []
  · subst h; simp [validate_listings]
  · simp only [validate_listings, h, if_false, List.all_eq_true, ne_eq,
      not_false_iff, true_and, Bool.and_eq_true]
    exact forall₂_congr (fun r _ => and_assoc)

/-- C2 witness for the amended claim, at a concrete record list. -/
theorem claim_C2_amended_witness :
    validate_listings [[("title", "a"), ("description", "b"), ("price", "c")]] = true :=
  (claim_C2_amended _).mpr ⟨by decide, by decide⟩

/-- C7: every record surviving `filter_valid_listings` has a present
title that is neither sentinel and is longer than 5 characters, and the
output is a subsequence of the input, hence no longer than it. -/
theorem claim_C7 (listings : List Rec) :
    (∀ r ∈ filter_valid_listings listings,
      ∃ t, getKey r "title" = some t ∧ t ≠ "N/A" ∧ t ≠ "Error extracting" ∧
        t.length > 5) ∧
    List.Sublist (filter_valid_listings listings) listings ∧
    (filter_valid_listings listings).length ≤ listings.length := by
  refine ⟨?_, List.filter_sublist _, (List.filter_sublist _).length_le⟩
  intro r hr
  obtain ⟨t, ht, _, h2, h3, h4⟩ :=
    (isValidListing_iff r).mp (List.of_mem_filter hr)
  exact ⟨t, ht, h2, h3, h4⟩

/-- C7 witness at a concrete input list. -/
theorem claim_C7_witness :
    (filter_valid_listings
      [[("title", "N/A")], [("title", "Good title here")]]).length ≤ 2 :=
  (claim_C7 [[("title", "N/A")], [("title", "Good title here")]]).2.2

/-- C8: `validate_url` returns `True` exactly on non-empty strings; the
domain/scheme check is dead code behind an unconditional `return True`,
so URL validation is effectively a no-op. -/
theorem claim_C8 (url : String) : validate_url url = true ↔ url ≠ "" := by
  by_cases h : url = "" <;> simp [validate_url, h]

/-- C8 witness: a non-OLX, non-http string is accepted. -/
theorem claim_C8_witness : validate_url "not a url at all" = true :=
  (claim_C8 "not a url at all").mpr (by decide)

/-- No mock title is a sentinel value. -/
theorem mockTitles_not_sentinel :
    ∀ s ∈ mockTitles, s ≠ "N/A" ∧ s ≠ "Error extracting" := by decide

/-- No mock feature description is a sentinel value. -/
theorem mockFeatures_not_sentinel :
    ∀ s ∈ mockFeatures, s ≠ "N/A" ∧ s ≠ "Error extracting" := by decide

/-- No mock price is a sentinel value. -/
theorem mockPrices_not_sentinel :
    ∀ s ∈ mockPrices, s ≠ "N/A" ∧ s ≠ "Error extracting" := by decide

/-- C9: for any choice oracle that returns an element of the pool it is
given (the guarantee of `random.choice`), `generate_mock_listings n`
returns exactly `n` records, each with exactly the three fields, each
value drawn from its fixed pool and hence never a sentinel. -/
theorem claim_C9 (n : Nat) (ch : Nat → List String → String)
    (hch : ∀ (k : Nat) (l : List String), l ≠ [] → ch k l ∈ l) :
    (generate_mock_listings n ch).length = n ∧
    ∀ r ∈ generate_mock_listings n ch,
      ∃ t d p, r = [("title", t), ("description", d), ("price", p)] ∧
        t ∈ mockTitles ∧ d ∈ mockFeatures ∧ p ∈ mockPrices ∧
        t ≠ "N/A" ∧ t ≠ "Error extracting" ∧
        d ≠ "N/A" ∧ d ≠ "Error extracting" ∧
        p ≠ "N/A" ∧ p ≠ "Error extracting" := by
  constructor
  · simp [generate_mock_listings]
  · intro r hr
    simp only [generate_mock_listings, List.mem_map, List.mem_range] at hr
    obtain ⟨i, _, rfl⟩ := hr
    have ht := hch (3 * i) mockTitles (by decide)
    have hd := hch (3 * i + 1) mockFeatures (by decide)
    have hp := hch (3 * i + 2) mockPrices (by decide)
    exact ⟨_, _, _, rfl, ht, hd, hp,
      (mockTitles_not_sentinel _ ht).1, (mockTitles_not_sentinel _ ht).2,
      (mockFeatures_not_sentinel _ hd).1, (mockFeatures_not_sentinel _ hd).2,
      (mockPrices_not_sentinel _ hp).1, (mockPrices_not_sentinel _ hp).2⟩

/-- C9 witness: a concrete oracle (always the first pool element)
satisfies the `random.choice` contract, and three records come back. -/
theorem claim_C9_witness :
    (generate_mock_listings 3 (fun _ l => l.headD "")).length = 3 :=
  (claim_C9 3 (fun _ l => l.headD "")
    (by intro k l hl; cases l with
        | nil => exact absurd rfl hl
        | cons a l => simp)).1

/-- C10: a record whose stripped price is empty or the `"N/A"` sentinel
passes through `clean_price_data` with its `price` binding untouched
(whitespace included), and a record lacking a `price` key does not gain
one: the `i`-th output record is `cleanRecord` of the `i`-th input, its
price lookup agrees with the input's, and absence of the key is
preserved. -/
theorem claim_C10 (ls : List Rec) (i : Nat) (h : i < ls.length)
    (hsent : pyStrip (getD (ls.get ⟨i, h⟩) "price" "") = "" ∨
      pyStrip (getD (ls.get ⟨i, h⟩) "price" "") = "N/A") :
    (clean_price_data ls)[i]? = some (cleanRecord (ls.get ⟨i, h⟩)) ∧
    getKey (cleanRecord (ls.get ⟨i, h⟩)) "price" = getKey (ls.get ⟨i, h⟩) "price" ∧
    (hasKey (ls.get ⟨i, h⟩) "price" = false →
      hasKey (cleanRecord (ls.get ⟨i, h⟩)) "price" = false) := by
  refine ⟨?_, getKey_cleanRecord_price _ hsent, ?_⟩
  · rw [clean_price_data, List.getElem?_map, List.getElem?_eq_getElem h]
    rfl
  · intro hk
    rw [hasKey_eq_isSome_getKey] at hk ⊢
    rw [getKey_cleanRecord_price _ hsent]
    exact hk

/-- C10 witness: a record with price `"  N/A  "` (whitespace kept) and
one lacking the price key. -/
theorem claim_C10_witness :
    getKey (cleanRecord (([("price", "  N/A  "), ("title", "t")] : Rec)))
      "price" = some "  N/A  " := by
  have h := claim_C10 [[("price", "  N/A  "), ("title", "t")]] 0 (by decide)
    (by right; decide)
  exact h.2.1.trans (by decide)

/-! ## Page harvest (C3, C4) -/

/-- The extraction loop of `scrape_search_results`, rephrased: a filter
of the extracted records by the `title != "N/A"` condition. -/
theorem harvestPage_eq (nodes : List ListingElem) :
    harvestPage nodes = (nodes.map extract_listing_data).filter
      (fun r => decide (getD r "title" "" ≠ "N/A")) := by
  suffices haux : ∀ (ns : List ListingElem) (acc : List Rec),
      ns.foldl (fun acc node =>
        let d := extract_listing_data node
        if getD d "title" "" ≠ "N/A" then acc ++ [d] else acc) acc =
      acc ++ (ns.map extract_listing_data).filter
        (fun r => decide (getD r "title" "" ≠ "N/A")) by
    simpa [harvestPage] using haux nodes []
  intro ns
  induction ns with
  | nil => simp
  | cons n ns ih =>
    intro acc
    simp only [List.foldl_cons, List.map_cons, List.filter_cons]
    by_cases h : getD (extract_listing_data n) "title" "" ≠ "N/A"
    · rw [if_pos h, ih]
      simp [h]
    · rw [if_neg h, ih]
      simp [h]

/-- C3: for every listing node on a page, its extracted record is in the
page's harvest output iff its title differs from `"N/A"`; in particular
records whose fields are `"Error extracting"` are included at harvest
time (only the plain missing sentinel is filtered there). -/
theorem claim_C3 (nodes : List ListingElem) (e : ListingElem) (he : e ∈ nodes) :
    (extract_listing_data e ∈ harvestPage nodes ↔
      getD (extract_listing_data e) "title" "" ≠ "N/A") ∧
    (e.raisesError = true → extract_listing_data e ∈ harvestPage nodes) := by
  have hmem : getD (extract_listing_data e) "title" "" ≠ "N/A" →
      extract_listing_data e ∈ harvestPage nodes := by
    intro ht
    rw [harvestPage_eq]
    exact List.mem_filter.mpr ⟨List.mem_map_of_mem _ he, by simpa using ht⟩
  refine ⟨⟨?_, hmem⟩, ?_⟩
  · intro hm
    rw [harvestPage_eq] at hm
    simpa using List.of_mem_filter hm
  · intro hr
    apply hmem
    simp [extract_listing_data, hr, getD, getKey]

/-- C3 witness: a page with one fully-missing node (title `"N/A"`) and
one error-raising node; the error record is harvested. -/
theorem claim_C3_witness :
    extract_listing_data ⟨some "t", none, none, true⟩ ∈
      harvestPage [⟨none, none, none, false⟩, ⟨some "t", none, none, true⟩] :=
  (claim_C3 [⟨none, none, none, false⟩, ⟨some "t", none, none, true⟩]
    ⟨some "t", none, none, true⟩ (by decide)).2 rfl

/-- C4: `extract_listing_data` assigns `"N/A"` to exactly the fields
whose lookup finds no child node and the trimmed text to the others; on
any exception the whole record degrades to `"Error extracting"` in all
three fields (partial success is never preserved on error). -/
theorem claim_C4 (e : ListingElem) :
    (e.raisesError = false →
      (e.titleText = none → getKey (extract_listing_data e) "title" = some "N/A") ∧
      (∀ s, e.titleText = some s →
        getKey (extract_listing_data e) "title" = some (pyStrip s)) ∧
      (e.descText = none → getKey (extract_listing_data e) "description" = some "N/A") ∧
      (∀ s, e.descText = some s →
        getKey (extract_listing_data e) "description" = some (pyStrip s)) ∧
      (e.priceText = none → getKey (extract_listing_data e) "price" = some "N/A") ∧
      (∀ s, e.priceText = some s →
        getKey (extract_listing_data e) "price" = some (pyStrip s))) ∧
    (e.raisesError = true →
      getKey (extract_listing_data e) "title" = some "Error extracting" ∧
      getKey (extract_listing_data e) "description" = some "Error extracting" ∧
      getKey (extract_listing_data e) "price" = some "Error extracting") := by
  obtain ⟨t, d, p, err⟩ := e
  constructor
  · rintro rfl
    refine ⟨?_, ?_, ?_, ?_, ?_, ?_⟩
    · rintro rfl; simp [extract_listing_data, getKey]
    · rintro s rfl; simp [extract_listing_data, getKey]
    · rintro rfl; cases t <;> simp [extract_listing_data, getKey]
    · rintro s rfl; cases t <;> simp [extract_listing_data, getKey]
    · rintro rfl; cases t <;> cases d <;> simp [extract_listing_data, getKey]
    · rintro s rfl; cases t <;> cases d <;> simp [extract_listing_data, getKey]
  · rintro rfl
    simp [extract_listing_data, getKey]

/-- C4 witness: a node with a found (padded) title, a missing
description and a missing price, plus an error-raising node. -/
theorem claim_C4_witness :
    getKey (extract_listing_data ⟨some "  Nice  ", none, none, false⟩)
      "title" = some "Nice" ∧
    getKey (extract_listing_data ⟨some "  Nice  ", none, none, false⟩)
      "description" = some "N/A" ∧
    getKey (extract_listing_data ⟨some "x", some "y", some "z", true⟩)
      "price" = some "Error extracting" := by
  have h := claim_C4 ⟨some "  Nice  ", none, none, false⟩
  have herr := claim_C4 ⟨some "x", some "y", some "z", true⟩
  exact ⟨((h.1 rfl).2.1 "  Nice  " rfl).trans (by decide),
    (h.1 rfl).2.2.1 rfl, (herr.2 rfl).2.2⟩

/-! ## Pagination (C5) -/

/-- Loop invariant for `scrapeLoop` up to a failing page `k`: with all
pages before `k` fetching successfully and matching some listings, the
loop from page `c ≤ k` returns the accumulator plus the harvests of
pages `c .. k-1`. -/
theorem scrapeLoop_inv (fetch : String → Option Soup) (url : String)
    (max_pages k : Nat) (soups : Nat → Soup)
    (hkm : k ≤ max_pages)
    (hfail : fetch (pageUrl url k) = none)
    (hok : ∀ j, 1 ≤ j → j < k →
      fetch (pageUrl url j) = some (soups j) ∧ selectListings (soups j) ≠ []) :
    ∀ (d c : Nat) (acc : List Rec), c + d = k → 1 ≤ c →
      scrapeLoop fetch url max_pages c acc = acc ++ pagesHarvest soups c d := by
  intro d
  induction d with
  | zero =>
    intro c acc hcd _
    obtain rfl : c = k := by omega
    rw [scrapeLoop, if_pos hkm, hfail]
    simp [pagesHarvest]
  | succ d ih =>
    intro c acc hcd hc1
    have hck : c < k := by omega
    obtain ⟨hfetch, hne⟩ := hok c hc1 hck
    rw [scrapeLoop, if_pos (by omega : c ≤ max_pages), hfetch]
    simp only [if_neg hne]
    rw [ih (c + 1) (acc ++ harvestPage (selectListings (soups c))) (by omega) (by omega)]
    simp [pagesHarvest]

/-- C5: if the transport fails on page `k` while every earlier page
fetches successfully and matches listings, `scrape_search_results`
returns exactly the records accumulated from pages `1 .. k-1` (no
error). -/
theorem claim_C5 (fetch : String → Option Soup) (url : String)
    (max_pages k : Nat) (soups : Nat → Soup)
    (hk1 : 1 ≤ k) (hkm : k ≤ max_pages)
    (hfail : fetch (pageUrl url k) = none)
    (hok : ∀ j, 1 ≤ j → j < k →
      fetch (pageUrl url j) = some (soups j) ∧ selectListings (soups j) ≠ []) :
    scrape_search_results fetch url max_pages = pagesHarvest soups 1 (k - 1) := by
  have h := scrapeLoop_inv fetch url max_pages k soups hkm hfail hok
    (k - 1) 1 [] (by omega) le_rfl
  simpa [scrape_search_results] using h

/-- C5 witness: `maxPages = 3`, transport failing on page 2 returns only
page 1's records. -/
theorem claim_C5_witness :
    scrape_search_results
      (fun u => if u = "u"
        then some ⟨[⟨some "Good title here", none, none, false⟩], [], []⟩
        else none)
      "u" 3 =
    pagesHarvest (fun _ => ⟨[⟨some "Good title here", none, none, false⟩], [], []⟩) 1 1 := by
  apply claim_C5 _ _ 3 2 _ (by omega) (by omega)
  · show (if pageUrl "u" 2 = "u" then _ else none) = none
    rw [if_neg (by decide)]
  · intro j h1 h2
    obtain rfl : j = 1 := by omega
    exact ⟨by decide, by decide⟩

/-! ## String lemmas for C6 (idempotence of the whitespace cleanup) -/

theorem dropWhile_eq_cons_false {α} (p : α → Bool) (l : List α) (c : α)
    (rest : List α) (h : l.dropWhile p = c :: rest) : p c = false := by
  induction l with
  | nil => simp [List.dropWhile] at h
  | cons a l ih =>
    rw [List.dropWhile_cons] at h
    by_cases ha : p a
    · exact ih (by simpa [ha] using h)
    · rw [if_neg ha] at h
      obtain ⟨rfl, -⟩ := List.cons.inj h
      simpa using ha

theorem dropWhile_cons_eq_self {α} (p : α → Bool) (a : α) (l : List α)
    (h : p a = false) : (a :: l).dropWhile p = a :: l := by
  rw [List.dropWhile_cons, if_neg (by simp [h])]

/-- A list whose first and last characters are not whitespace is fixed
by `stripChars`. -/
theorem stripChars_eq_self (l : List Char)
    (h1 : ∀ c rest, l = c :: rest → pyIsSpace c = false)
    (h2 : ∀ c rest, l.reverse = c :: rest → pyIsSpace c = false) :
    stripChars l = l := by
  cases l with
  | nil => rfl
  | cons a as =>
    have hd : (a :: as).dropWhile pyIsSpace = a :: as :=
      dropWhile_cons_eq_self _ _ _ (h1 a as rfl)
    rw [stripChars, hd]
    cases hr : (a :: as).reverse with
    | nil => exact absurd hr (by simp)
    | cons c cs =>
      rw [dropWhile_cons_eq_self _ _ _ (h2 c cs hr), ← hr, List.reverse_reverse]

theorem stripChars_idem (l : List Char) :
    stripChars (stripChars l) = stripChars l := by
  apply stripChars_eq_self
  · intro c rest h
    obtain ⟨t, ht⟩ := (List.dropWhile_suffix pyIsSpace
      (l := (l.dropWhile pyIsSpace).reverse))
    have hm : (List.dropWhile pyIsSpace (l.dropWhile pyIsSpace).reverse).reverse
        ++ t.reverse = l.dropWhile pyIsSpace := by
      have hr := congrArg List.reverse ht
      simpa [List.reverse_append] using hr
    have hrev : (List.dropWhile pyIsSpace (l.dropWhile pyIsSpace).reverse).reverse
        = c :: rest := h
    rw [hrev] at hm
    have hm' : List.dropWhile pyIsSpace l = c :: (rest ++ t.reverse) := by
      rw [← hm]; simp
    exact dropWhile_eq_cons_false _ _ _ _ hm'
  · intro c rest h
    rw [stripChars, List.reverse_reverse] at h
    exact dropWhile_eq_cons_false _ _ _ _ h

theorem tokens_words (l : List Char) : IsTokens (words l) := by
  induction l using words.induct with
  | case1 => intro t ht; simp [words] at ht
  | case2 c cs h ih =>
    intro t ht
    rw [words, if_pos h] at ht
    exact ih t ht
  | case3 c cs h ih =>
    intro t ht
    rw [words, if_neg h] at ht
    rcases List.mem_cons.mp ht with rfl | hmem
    · refine ⟨by simp, ?_⟩
      intro x hx
      rcases List.mem_cons.mp hx with rfl | hx'
      · simpa using h
      · have := List.mem_takeWhile_imp hx'
        simpa using this
    · exact ih t hmem

theorem takeWhile_append_all {α} (p : α → Bool) (l₁ l₂ : List α)
    (h : ∀ x ∈ l₁, p x = true) :
    (l₁ ++ l₂).takeWhile p = l₁ ++ l₂.takeWhile p := by
  induction l₁ with
  | nil => simp
  | cons a l ih =>
    have ha : p a = true := h a (by simp)
    simp only [List.cons_append, List.takeWhile_cons, ha, if_true]
    rw [ih (fun x hx => h x (by simp [hx]))]

theorem dropWhile_append_all {α} (p : α → Bool) (l₁ l₂ : List α)
    (h : ∀ x ∈ l₁, p x = true) :
    (l₁ ++ l₂).dropWhile p = l₂.dropWhile p := by
  induction l₁ with
  | nil => simp
  | cons a l ih =>
    have ha : p a = true := h a (by simp)
    simp only [List.cons_append, List.dropWhile_cons, ha, if_true]
    exact ih (fun x hx => h x (by simp [hx]))

theorem words_join (ts : List (List Char)) (h : IsTokens ts) :
    words (joinChars ts) = ts := by
  induction ts with
  | nil => simp [joinChars, words]
  | cons t ts ih =>
    obtain ⟨hne, hns⟩ := h t (by simp)
    obtain ⟨c, t', rfl⟩ : ∃ c t', t = c :: t' := by
      cases t with
      | nil => exact absurd rfl hne
      | cons c t' => exact ⟨c, t', rfl⟩
    have hc : pyIsSpace c = false := hns c (by simp)
    have ht' : ∀ x ∈ t', (fun d => !pyIsSpace d) x = true := by
      intro x hx; simp [hns x (by simp [hx])]
    cases ts with
    | nil =>
      show words (c :: t') = [c :: t']
      rw [words, if_neg (by simp [hc])]
      rw [List.takeWhile_eq_self_iff.mpr ht', List.dropWhile_eq_nil_iff.mpr ht']
      simp [words]
    | cons t₂ ts' =>
      have hrest : IsTokens (t₂ :: ts') := fun u hu => h u (by simp [hu])
      show words ((c :: t') ++ ' ' :: joinChars (t₂ :: ts')) = (c :: t') :: t₂ :: ts'
      rw [List.cons_append, words, if_neg (by simp [hc])]
      rw [takeWhile_append_all _ _ _ ht', dropWhile_append_all _ _ _ ht']
      have hsp : ((' ' :: joinChars (t₂ :: ts')).takeWhile (fun d => !pyIsSpace d)) = [] := by
        rw [List.takeWhile_cons, if_neg (by simp [pyIsSpace])]
      have hsp' : ((' ' :: joinChars (t₂ :: ts')).dropWhile (fun d => !pyIsSpace d)) =
          ' ' :: joinChars (t₂ :: ts') :=
        dropWhile_cons_eq_self _ _ _ (by simp [pyIsSpace])
      rw [hsp, hsp', List.append_nil]
      rw [words, if_pos (by simp [pyIsSpace]), ih hrest]

theorem joinChars_ne_nil (ts : List (List Char)) (h : IsTokens ts)
    (hne : ts ≠ []) : joinChars ts ≠ [] := by
  cases ts with
  | nil => exact absurd rfl hne
  | cons t ts =>
    obtain ⟨htne, -⟩ := h t (by simp)
    cases ts with
    | nil => simpa [joinChars] using htne
    | cons t₂ ts' =>
      show t ++ ' ' :: joinChars (t₂ :: ts') ≠ []
      simp

theorem joinChars_head_false (ts : List (List Char)) (h : IsTokens ts) :
    ∀ c rest, joinChars ts = c :: rest → pyIsSpace c = false := by
  intro c rest hj
  cases ts with
  | nil => simp [joinChars] at hj
  | cons t ts =>
    obtain ⟨htne, hns⟩ := h t (by simp)
    obtain ⟨a, t', rfl⟩ : ∃ a t', t = a :: t' := by
      cases t with
      | nil => exact absurd rfl htne
      | cons a t' => exact ⟨a, t', rfl⟩
    have : a = c := by
      cases ts with
      | nil => exact (List.cons.inj hj).1
      | cons t₂ ts' =>
        have : (a :: t') ++ ' ' :: joinChars (t₂ :: ts') = c :: rest := hj
        exact (List.cons.inj this).1
    exact this ▸ hns a (by simp)

theorem joinChars_reverse_head_false (ts : List (List Char)) (h : IsTokens ts) :
    ∀ c rest, (joinChars ts).reverse = c :: rest → pyIsSpace c = false := by
  induction ts with
  | nil => intro c rest hj; simp [joinChars] at hj
  | cons t ts ih =>
    intro c rest hj
    obtain ⟨htne, hns⟩ := h t (by simp)
    cases ts with
    | nil =>
      have hc : c ∈ t := by
        have : c ∈ t.reverse := by
          show c ∈ (joinChars [t]).reverse
          rw [hj]; simp
        simpa using this
      exact hns c hc
    | cons t₂ ts' =>
      have hrest : IsTokens (t₂ :: ts') := fun u hu => h u (by simp [hu])
      have hjne : joinChars (t₂ :: ts') ≠ [] :=
        joinChars_ne_nil _ hrest (by simp)
      obtain ⟨c₀, cs₀, hrev⟩ : ∃ c₀ cs₀, (joinChars (t₂ :: ts')).reverse = c₀ :: cs₀ := by
        cases hr : (joinChars (t₂ :: ts')).reverse with
        | nil => exact absurd (by simpa using hr) hjne
        | cons c₀ cs₀ => exact ⟨c₀, cs₀, rfl⟩
      have hstep : (joinChars (t :: t₂ :: ts')).reverse =
          c₀ :: (cs₀ ++ ' ' :: t.reverse) := by
        show (t ++ ' ' :: joinChars (t₂ :: ts')).reverse = _
        rw [List.reverse_append, List.reverse_cons, hrev]
        simp
      rw [hstep] at hj
      obtain ⟨rfl, -⟩ := List.cons.inj hj
      exact ih hrest c₀ cs₀ hrev

theorem strip_joinChars (ts : List (List Char)) (h : IsTokens ts) :
    stripChars (joinChars ts) = joinChars ts :=
  stripChars_eq_self _ (joinChars_head_false ts h) (joinChars_reverse_head_false ts h)

/-! String-level corollaries -/

theorem pyStrip_idem (s : String) : pyStrip (pyStrip s) = pyStrip s :=
  congrArg String.mk (stripChars_idem s.data)

theorem pyStrip_joinWords (s : String) : pyStrip (joinWords s) = joinWords s :=
  congrArg String.mk (strip_joinChars (words s.data) (tokens_words s.data))

theorem joinWords_idem (s : String) : joinWords (joinWords s) = joinWords s :=
  congrArg String.mk
    (congrArg joinChars (words_join (words s.data) (tokens_words s.data)))

/-! ## Idempotence of `clean_price_data` (C6) -/

theorem getKey_cleanRecord_title (l : Rec) :
    getKey (cleanRecord l) "title" = some (pyStrip (getD l "title" "")) := by
  simp only [cleanRecord]
  rw [getKey_setKey_ne _ _ _ _ (by decide), getKey_setKey_self]

theorem getKey_cleanRecord_description (l : Rec) :
    getKey (cleanRecord l) "description" = some (pyStrip (getD l "description" "")) := by
  simp only [cleanRecord]
  rw [getKey_setKey_self]

theorem getKey_cleanRecord_price_pos (l : Rec)
    (h : pyStrip (getD l "price" "") ≠ "" ∧ pyStrip (getD l "price" "") ≠ "N/A") :
    getKey (cleanRecord l) "price" = some (joinWords (pyStrip (getD l "price" ""))) := by
  simp only [cleanRecord]
  rw [getKey_setKey_ne _ _ _ _ (by decide), getKey_setKey_ne _ _ _ _ (by decide),
    if_pos h, getKey_setKey_self]

/-- A record already in cleaned form is a fixed point of `cleanRecord`. -/
theorem cleanRecord_eq_self (c : Rec) (t d : String)
    (hT : getKey c "title" = some t) (hTs : pyStrip t = t)
    (hD : getKey c "description" = some d) (hDs : pyStrip d = d)
    (hP : (pyStrip (getD c "price" "") = "" ∨ pyStrip (getD c "price" "") = "N/A") ∨
      ∃ v, getKey c "price" = some v ∧ pyStrip v = v ∧ joinWords v = v) :
    cleanRecord c = c := by
  have hgdT : getD c "title" "" = t := by simp [getD, hT]
  have hgdD : getD c "description" "" = d := by simp [getD, hD]
  simp only [cleanRecord]
  have hmain : (if pyStrip (getD c "price" "") ≠ "" ∧ pyStrip (getD c "price" "") ≠ "N/A"
      then setKey c "price" (joinWords (pyStrip (getD c "price" ""))) else c) = c := by
    rcases hP with hs | ⟨v, hv, hvs, hvj⟩
    · rw [if_neg (by tauto)]
    · have hgdP : getD c "price" "" = v := by simp [getD, hv]
      rw [hgdP, hvs]
      by_cases hc : v ≠ "" ∧ v ≠ "N/A"
      · rw [if_pos hc, hvj, setKey_getKey_self _ _ _ hv]
      · rw [if_neg hc]
  rw [hmain, hgdT, hTs, setKey_getKey_self _ _ _ hT, hgdD, hDs,
    setKey_getKey_self _ _ _ hD]

theorem cleanRecord_idem (l : Rec) :
    cleanRecord (cleanRecord l) = cleanRecord l := by
  apply cleanRecord_eq_self (cleanRecord l)
    (pyStrip (getD l "title" "")) (pyStrip (getD l "description" ""))
  · exact getKey_cleanRecord_title l
  · exact pyStrip_idem _
  · exact getKey_cleanRecord_description l
  · exact pyStrip_idem _
  · by_cases hc : pyStrip (getD l "price" "") ≠ "" ∧ pyStrip (getD l "price" "") ≠ "N/A"
    · right
      exact ⟨joinWords (pyStrip (getD l "price" "")),
        getKey_cleanRecord_price_pos l hc, pyStrip_joinWords _, joinWords_idem _⟩
    · left
      have hs : pyStrip (getD l "price" "") = "" ∨ pyStrip (getD l "price" "") = "N/A" := by
        tauto
      have heq := getKey_cleanRecord_price l hs
      have hgd : getD (cleanRecord l) "price" "" = getD l "price" "" := by
        simp [getD, heq]
      rw [hgd]
      exact hs

/-- C6: `clean_price_data` is idempotent on every record list: the
whitespace collapsing and trimming are stable under a second pass. -/
theorem claim_C6 (x : List Rec) :
    clean_price_data (clean_price_data x) = clean_price_data x := by
  induction x with
  | nil => rfl
  | cons r x ih =>
    simp only [clean_price_data, List.map_cons] at ih ⊢
    rw [cleanRecord_idem]
    exact congrArg _ (by simpa [clean_price_data] using ih)

/-- C6 witness at a concrete record list. -/
theorem claim_C6_witness :
    clean_price_data (clean_price_data [[("title", " t "), ("price", " 1  199 ")]]) =
      clean_price_data [[("title", " t "), ("price", " 1  199 ")]] :=
  claim_C6 [[("title", " t "), ("price", " 1  199 ")]]

end OLX
